import Mathlib

/-!
Shallow embedding of the NewlineJSON streaming I/O module
(`newlinejson.py`, with the near-identical `newlinejson/core.py` variant
noted where the two differ).

The JSON value model is a type parameter `J`; the pluggable codec
(`json_lib`) is a pair of functions `loads : String → Option J`
(`none` models a raised `ValueError`) and `dumps : J → Option String`
(`none` models a raised encoding exception).  The underlying file object
of a `Reader` is the list of its remaining lines; for a `Writer` it is
the text accumulated so far plus a flag modelling a file object whose
`write` call raises an I/O error, and a `closed` flag (nothing in the
embedded code ever closes it, mirroring the source).
-/

set_option autoImplicit false

namespace NLJ

variable {J : Type}

/-- Python whitespace, as recognised by `str.strip()` on ASCII text. -/
def isPySpace (c : Char) : Bool :=
  c = ' ' || c = '\t' || c = '\n' || c = '\r' || c = '\x0b' || c = '\x0c'

/-- Strip leading and trailing whitespace from a character list. -/
def stripChars (l : List Char) : List Char :=
  ((l.dropWhile isPySpace).reverse.dropWhile isPySpace).reverse

/-- Embedding of Python `str.strip()` (as used by `Reader._readline`). -/
def pyStrip (s : String) : String :=
  String.mk (stripChars s.data)

/-- Split a string the way iterating `io.StringIO(s)` yields lines: each
piece keeps its trailing newline, and a final empty piece is not yielded. -/
def splitLinesAux : List Char → List Char → List (List Char)
  | [], acc => if acc.isEmpty then [] else [acc.reverse]
  | c :: rest, acc =>
    if c = '\n' then (acc.reverse ++ ['\n']) :: splitLinesAux rest []
    else splitLinesAux rest (c :: acc)

/-- Lines yielded by iterating `StringIO(s)`, used by `Reader.from_string`. -/
def splitLines (s : String) : List String :=
  (splitLinesAux s.data []).map String.mk

/-- Result of one `Reader.next()` call: a returned value, a raised
`ValueError` (decode error), or a raised `StopIteration` (source
exhausted). -/
inductive ReadResult (J : Type) where
  | value (v : J)
  | error
  | stop
deriving DecidableEq

/-- State of `newlinejson.Reader`: the remaining lines of the underlying
file object, the constructor flags, the injected codec decode function,
and the `_failures` / `_line_num` counters. -/
structure Reader (J : Type) where
  f : List String
  skip_failures : Bool
  skip_empty : Bool
  empty_val : J
  fail_val : J
  loads : String → Option J
  failures : Nat
  line_num : Nat

/-- The tail of `Reader.next()`: `return self.json_lib.loads(row)` together
with the `except ValueError` handler (count the failure, then either
re-raise or return `fail_val`). -/
def decodeRow (row : String) (r : Reader J) : ReadResult J × Reader J :=
  match r.loads row with
  | some v => (.value v, r)
  | none =>
    let r2 : Reader J := { r with failures := r.failures + 1 }
    if r.skip_failures then (.value r.fail_val, r2) else (.error, r2)

/-- The `while not row: row = self._readline()` loop of `Reader.next()`
extracted over the remaining lines: returns the first non-blank stripped
line (if any), the lines after it, and how many `_readline` calls were
made (the exhausting call included, since `_line_num` is incremented
before `next(self._f)` raises `StopIteration`). -/
def skipBlanks : List String → Option String × List String × Nat
  | [] => (none, [], 1)
  | l :: rest =>
    if pyStrip l = "" then
      let (row, f2, k) := skipBlanks rest
      (row, f2, k + 1)
    else (some (pyStrip l), rest, 1)

/-- Embedding of `Reader.next()` (`= __next__`): pull one stripped line
(`_readline`), then either skip blank lines (`skip_empty`), return
`empty_val`, or decode the line, with `ValueError` handled per
`skip_failures`.  A `StopIteration` from `_readline` propagates. -/
def Reader.next (r : Reader J) : ReadResult J × Reader J :=
  match r.f with
  | [] => (.stop, { r with line_num := r.line_num + 1 })
  | l :: rest =>
    let row := pyStrip l
    let r1 : Reader J := { r with f := rest, line_num := r.line_num + 1 }
    if r.skip_empty then
      if row = "" then
        match skipBlanks rest with
        | (none, f2, k) => (.stop, { r1 with f := f2, line_num := r1.line_num + k })
        | (some row2, f2, k) =>
          decodeRow row2 { r1 with f := f2, line_num := r1.line_num + k }
      else decodeRow row r1
    else if row = "" then (.value r.empty_val, r1)
    else decodeRow row r1

/-- An exception escaping `Reader.__init__` out of the
`for i in range(skip_lines): self.next()` loop. -/
inductive CtorErr where
  | valueError
  | stopIteration
deriving DecidableEq

/-- The `for i in range(skip_lines): self.next()` loop of
`Reader.__init__`; any exception raised by `next()` propagates. -/
def applySkips : Nat → Reader J → Except CtorErr (Reader J)
  | 0, r => .ok r
  | n + 1, r =>
    match r.next with
    | (.value _, r2) => applySkips n r2
    | (.error, _) => .error .valueError
    | (.stop, _) => .error .stopIteration

/-- Embedding of `Reader.__init__` with the source's parameter order
(`f, skip_lines, skip_failures, skip_empty, empty_val, fail_val,
json_lib`).  `skip_lines` is an `Int` as in Python; `range(skip_lines)`
iterates `max(skip_lines, 0)` times, i.e. `skip_lines.toNat` times.
No validation of `skip_lines` or of the mode is performed, as in the
source. -/
def Reader.make (f : List String) (skip_lines : Int) (skip_failures skip_empty : Bool)
    (empty_val fail_val : J) (loads : String → Option J) : Except CtorErr (Reader J) :=
  applySkips skip_lines.toNat
    { f := f, skip_failures := skip_failures, skip_empty := skip_empty,
      empty_val := empty_val, fail_val := fail_val, loads := loads,
      failures := 0, line_num := 0 }

/-- Embedding of `[line for line in reader]` (the body of `load`/`loads`
and of iterating a `Reader` to exhaustion): repeatedly call `next()`
until `StopIteration`; a `ValueError` (`skip_failures=False`)
propagates.  Also returns the final reader state. -/
def readAll (r : Reader J) : Except Unit (List J) × Reader J :=
  match h : r.next with
  | (.stop, r2) => (.ok [], r2)
  | (.error, r2) => (.error (), r2)
  | (.value v, r2) =>
    have hlt : r2.f.length < r.f.length := by
      have hsb : ∀ f : List String, ((skipBlanks f).2.1).length ≤ f.length := by
        intro f
        induction f with
        | nil => simp [skipBlanks]
        | cons l rest ih =>
          simp only [skipBlanks]
          by_cases hb : pyStrip l = ""
          · simp only [hb, if_pos rfl]
            exact le_trans ih (Nat.le_succ _)
          · simp [hb]
      have hdr : ∀ (row : String) (st : Reader J) (res : ReadResult J) (st2 : Reader J),
          decodeRow row st = (res, st2) → st2.f = st.f := by
        intro row st res st2 hrow
        unfold decodeRow at hrow
        rcases hl : st.loads row with _ | v2 <;> rw [hl] at hrow
        · dsimp only at hrow
          by_cases hskf : st.skip_failures = true <;>
            [rw [if_pos hskf] at hrow; rw [if_neg hskf] at hrow] <;>
            · injection hrow with h1 h2
              subst h2
              rfl
        · injection hrow with h1 h2
          subst h2
          rfl
      rcases hf : r.f with _ | ⟨l, rest⟩
      · unfold Reader.next at h
        rw [hf] at h
        simp at h
      · unfold Reader.next at h
        rw [hf] at h
        dsimp only at h
        by_cases hse : r.skip_empty = true <;> [rw [if_pos hse] at h; rw [if_neg hse] at h]
        · by_cases hb : pyStrip l = "" <;> [rw [if_pos hb] at h; rw [if_neg hb] at h]
          · rcases hsk : skipBlanks rest with ⟨row, f2, k⟩
            rw [hsk] at h
            rcases row with _ | row2
            · exact absurd h (by simp)
            · dsimp only at h
              have hff := hdr _ _ _ _ h
              rw [hff]
              dsimp only
              simp only [List.length_cons]
              have h2 := hsb rest
              rw [hsk] at h2
              exact Nat.lt_succ_of_le h2
          · have hff := hdr _ _ _ _ h
            rw [hff]
            simp
        · by_cases hb : pyStrip l = "" <;> [rw [if_pos hb] at h; rw [if_neg hb] at h]
          · injection h with h1 h2
            subst h2
            simp
          · have hff := hdr _ _ _ _ h
            rw [hff]
            simp
    match readAll r2 with
    | (.ok vs, r3) => (.ok (v :: vs), r3)
    | (.error e, r3) => (.error e, r3)
termination_by r.f.length

/-- An exception escaping `Writer.write`: a failed
`json_lib.dumps` call, or an I/O error raised by the underlying file
object's `write` method.  Both are caught by the `except Exception`
handler in the source. -/
inductive PyErr where
  | encodeErr
  | ioErr
deriving DecidableEq

/-- State of `newlinejson.Writer`: the text written to the underlying
file object so far, a flag modelling a file object whose `write` raises
an I/O error, the `closed` state of that file object (never touched by
the embedded code), the constructor flags, the injected codec encode
function, and the `_line_num` / `_failures` counters. -/
structure Writer (J : Type) where
  contents : String
  sinkRaises : Bool
  closed : Bool
  skip_failures : Bool
  delimiter : String
  dumps : J → Option String
  line_num : Nat
  failures : Nat

/-- Embedding of `Writer.__init__` (`f, skip_failures, delimiter,
json_lib`); counters start at zero. -/
def Writer.make (contents : String) (sinkRaises closed skip_failures : Bool)
    (delimiter : String) (dumps : J → Option String) : Writer J :=
  { contents := contents, sinkRaises := sinkRaises, closed := closed,
    skip_failures := skip_failures, delimiter := delimiter, dumps := dumps,
    line_num := 0, failures := 0 }

/-- Embedding of `Writer.write` (`= writerow`): build
`json_lib.dumps(line) + delimiter`, append it via `self._f.write`, and
increment `_line_num`; any exception in that block (a failed encode or
an I/O error from `_f.write`) increments `_failures` and is either
re-raised (`skip_failures=False`) or swallowed with `return False`.
Returns `True` on success. -/
def Writer.write (w : Writer J) (line : J) : Except PyErr Bool × Writer J :=
  match w.dumps line with
  | none =>
    let w2 : Writer J := { w with failures := w.failures + 1 }
    if w.skip_failures then (.ok false, w2) else (.error .encodeErr, w2)
  | some s =>
    if w.sinkRaises then
      let w2 : Writer J := { w with failures := w.failures + 1 }
      if w.skip_failures then (.ok false, w2) else (.error .ioErr, w2)
    else
      (.ok true,
        { w with contents := w.contents ++ (s ++ w.delimiter),
                 line_num := w.line_num + 1 })

/-- A sequence of `write` calls against one writer, each call's outcome
recorded (the caller handles any raised exception and keeps going). -/
def writeSeq (w : Writer J) : List J → List (Except PyErr Bool) × Writer J
  | [] => ([], w)
  | l :: rest =>
    let (res, w2) := w.write l
    let (ress, w3) := writeSeq w2 rest
    (res :: ress, w3)

/-- Did a `Writer.write` call return `True` (a fully successful write)? -/
def isOkTrue : Except PyErr Bool → Bool
  | .ok true => true
  | _ => false

/-- The `for line in line_list: writer.write(line)` loop of
`dump`/`dumps`: return values are ignored, a raised exception
propagates and stops the loop. -/
def dumpLoop (w : Writer J) : List J → Except PyErr Unit × Writer J
  | [] => (.ok (), w)
  | l :: rest =>
    match w.write l with
    | (.ok _, w2) => dumpLoop w2 rest
    | (.error e, w2) => (.error e, w2)

/-- Embedding of `dump(line_list, f, **kwargs)`: construct a `Writer`
around the caller-supplied file object, write each record, return
`True`.  The file object is never closed (there is no `close` call in
the source, and `Writer` has no `close` method). -/
def dump (line_list : List J) (fContents : String) (fRaises fClosed : Bool)
    (skip_failures : Bool) (delimiter : String) (dumpsFn : J → Option String) :
    Except PyErr Bool × Writer J :=
  let writer := Writer.make fContents fRaises fClosed skip_failures delimiter dumpsFn
  match dumpLoop writer line_list with
  | (.ok _, w2) => (.ok true, w2)
  | (.error e, w2) => (.error e, w2)

/-- Embedding of `dumps(line_list, **kwargs)`: write into a fresh
`StringIO` (empty, open, never raising) and return its contents. -/
def dumps (line_list : List J) (skip_failures : Bool) (delimiter : String)
    (dumpsFn : J → Option String) : Except PyErr String :=
  let writer := Writer.make "" false false skip_failures delimiter dumpsFn
  match dumpLoop writer line_list with
  | (.ok _, w2) => .ok w2.contents
  | (.error e, _) => .error e

/-- Embedding of `loads(string, **kwargs)`
(`[line for line in Reader.from_string(string, **kwargs)]`):
wrap the string in a `StringIO`-like line source and drain the reader;
any exception (from construction or reading) propagates. -/
def loads (string : String) (skip_lines : Int) (skip_failures skip_empty : Bool)
    (empty_val fail_val : J) (loadsFn : String → Option J) : Except Unit (List J) :=
  match Reader.make (splitLines string) skip_lines skip_failures skip_empty
      empty_val fail_val loadsFn with
  | .ok r => (readAll r).1
  | .error _ => .error ()

/-- The text `dump`/`dumps` appends for a list of records that all
encode successfully: each encoded record followed by the delimiter. -/
def encLines (dumpsFn : J → Option String) (delim : String) : List J → String
  | [] => ""
  | r :: rest => (dumpsFn r).getD "" ++ delim ++ encLines dumpsFn delim rest

/-- A concrete toy codec used to exercise the model at concrete inputs:
decodes the letters `A`–`E` to `1`–`5`, the empty string to `7`, and
fails on everything else (in particular on `"["`). -/
def tDec (s : String) : Option Nat :=
  if s = "A" then some 1
  else if s = "B" then some 2
  else if s = "C" then some 3
  else if s = "D" then some 4
  else if s = "E" then some 5
  else if s = "" then some 7
  else none

/-- Concrete toy encoder matching `tDec` on `1` and `2`. -/
def tEnc (n : Nat) : Option String :=
  if n = 1 then some "A" else if n = 2 then some "B" else none

/-- A `Reader` whose next line is malformed (fails to decode), followed by a
line that decodes, with `skip_failures=True`. -/
def rMalformed : Reader Nat :=
  { f := ["[", "A"], skip_failures := true, skip_empty := true,
    empty_val := 0, fail_val := 0, loads := tDec, failures := 0, line_num := 0 }

/-- A `Reader` over a source that is a single malformed line, with
`skip_failures=True` (`n = 1` lines, `k = 1` malformed). -/
def rAllBad : Reader Nat :=
  { f := ["["], skip_failures := true, skip_empty := true,
    empty_val := 0, fail_val := 0, loads := tDec, failures := 0, line_num := 0 }

/-- A default-flag `Reader` over a source that is one blank line, with a
codec that decodes the empty string to `7`. -/
def rBlankDefault : Reader Nat :=
  { f := [""], skip_failures := false, skip_empty := true,
    empty_val := 9, fail_val := 0, loads := tDec, failures := 0, line_num := 0 }

/-- Same source and codec as `rBlankDefault` but with `skip_empty=False`. -/
def rBlankNoSkip : Reader Nat :=
  { rBlankDefault with skip_empty := false }

/-- A `Reader` over a blank line followed by a decodable line, default flags. -/
def rBlankThenA : Reader Nat :=
  { f := ["", "A"], skip_failures := false, skip_empty := true,
    empty_val := 9, fail_val := 0, loads := tDec, failures := 0, line_num := 0 }

/-- The spec scenario: 3 lines, the middle one malformed, with
`skip_failures=True` (`n = 3`, `k = 1`). -/
def rSkipScenario : Reader Nat :=
  { f := ["A", "[", "B"], skip_failures := true, skip_empty := true,
    empty_val := 0, fail_val := 0, loads := tDec, failures := 0, line_num := 0 }

/-- The same 3-line source with `skip_failures=False`. -/
def rStrictScenario : Reader Nat :=
  { f := ["A", "[", "B"], skip_failures := false, skip_empty := true,
    empty_val := 0, fail_val := 0, loads := tDec, failures := 0, line_num := 0 }

end NLJ

namespace NLJ

variable {J : Type}

/-- `Reader.next` on an exhausted source: `_readline` increments
`_line_num` and then `next(self._f)` raises `StopIteration`. -/
theorem next_nil (r : Reader J) (h : r.f = []) :
    r.next = (.stop, { r with line_num := r.line_num + 1 }) := by
  unfold Reader.next
  rw [h]

/-- `Reader.next` on a non-blank first line reduces to decoding that line,
whatever `skip_empty` is. -/
theorem next_cons_nonblank (r : Reader J) (l : String) (rest : List String)
    (hf : r.f = l :: rest) (hnb : pyStrip l ≠ "") :
    r.next = decodeRow (pyStrip l) { r with f := rest, line_num := r.line_num + 1 } := by
  unfold Reader.next
  rw [hf]
  dsimp only
  by_cases hse : r.skip_empty = true
  · rw [if_pos hse, if_neg hnb]
  · rw [if_neg hse, if_neg hnb]

/-- The blank-skipping loop on an all-blank remainder exhausts the source. -/
theorem skipBlanks_all_blank (bs : List String) (hb : ∀ b ∈ bs, pyStrip b = "") :
    skipBlanks bs = (none, [], bs.length + 1) := by
  induction bs with
  | nil => rfl
  | cons b rest ih =>
    simp only [skipBlanks]
    rw [if_pos (hb b (by simp)), ih (fun x hx => hb x (by simp [hx]))]
    simp

/-- The blank-skipping loop stops at the first non-blank line. -/
theorem skipBlanks_find (bs : List String) (l : String) (rest : List String)
    (hb : ∀ b ∈ bs, pyStrip b = "") (hl : pyStrip l ≠ "") :
    skipBlanks (bs ++ l :: rest) = (some (pyStrip l), rest, bs.length + 1) := by
  induction bs with
  | nil => simp [skipBlanks, hl]
  | cons b bs2 ih =>
    rw [List.cons_append]
    simp only [skipBlanks]
    rw [if_pos (hb b (by simp)), ih (fun x hx => hb x (by simp [hx]))]
    simp

/-- With `skip_empty=True`, `Reader.next` silently consumes a run of blank
lines and decodes the first non-blank line after it. -/
theorem next_skip_empty (r : Reader J) (bs : List String) (l : String) (rest : List String)
    (hf : r.f = bs ++ l :: rest) (hb : ∀ b ∈ bs, pyStrip b = "") (hl : pyStrip l ≠ "")
    (hse : r.skip_empty = true) :
    r.next = decodeRow (pyStrip l)
      { r with f := rest, line_num := r.line_num + bs.length + 1 } := by
  cases bs with
  | nil =>
    rw [next_cons_nonblank r l rest (by simpa using hf) hl]
    simp
  | cons b bs2 =>
    unfold Reader.next
    rw [hf, List.cons_append]
    dsimp only
    rw [if_pos hse, if_pos (hb b (by simp)),
      skipBlanks_find bs2 l rest (fun x hx => hb x (by simp [hx])) hl]
    dsimp only
    have hn : r.line_num + 1 + (bs2.length + 1) = r.line_num + (b :: bs2).length + 1 := by
      simp only [List.length_cons]
      omega
    rw [hn]

/-- With `skip_empty=True`, `Reader.next` on an all-blank remainder raises
`StopIteration` after consuming every line. -/
theorem next_all_blank (r : Reader J) (b : String) (bs : List String)
    (hf : r.f = b :: bs) (hb : ∀ x ∈ b :: bs, pyStrip x = "") (hse : r.skip_empty = true) :
    r.next = (.stop, { r with f := [], line_num := r.line_num + bs.length + 2 }) := by
  unfold Reader.next
  rw [hf]
  dsimp only
  rw [if_pos hse, if_pos (hb b (by simp)),
    skipBlanks_all_blank bs (fun x hx => hb x (by simp [hx]))]
  dsimp only
  have hn : r.line_num + 1 + (bs.length + 1) = r.line_num + bs.length + 2 := by omega
  rw [hn]

/-- `readAll` when the source is exhausted. -/
theorem readAll_of_stop (r r2 : Reader J) (h : r.next = (.stop, r2)) :
    readAll r = (.ok [], r2) := by
  rw [readAll.eq_def]
  split <;> rename_i heq <;> rw [h] at heq
  · injection heq with h1 h2
    rw [h2]
  · exact absurd heq (by simp)
  · exact absurd heq (by simp)

/-- `readAll` when the next pull raises `ValueError`. -/
theorem readAll_of_error (r r2 : Reader J) (h : r.next = (.error, r2)) :
    readAll r = (.error (), r2) := by
  rw [readAll.eq_def]
  split <;> rename_i heq <;> rw [h] at heq
  · exact absurd heq (by simp)
  · injection heq with h1 h2
    rw [h2]
  · exact absurd heq (by simp)

/-- `readAll` when the next pull returns a value. -/
theorem readAll_of_value (r : Reader J) (v : J) (r2 : Reader J) (h : r.next = (.value v, r2)) :
    readAll r = ((readAll r2).1.map (fun vs => v :: vs), (readAll r2).2) := by
  rw [readAll.eq_def]
  split <;> rename_i heq <;> rw [h] at heq
  · exact absurd heq (by simp)
  · exact absurd heq (by simp)
  · injection heq with h1 h2
    injection h1 with h1
    subst h1
    subst h2
    rcases hra : readAll r2 with ⟨res, r4⟩
    rcases res with e | vs <;> simp [hra, Except.map]

end NLJ

namespace NLJ

variable {J : Type}

/-- Draining a reader whose remaining lines are all non-blank, with
`skip_failures=True`: every line yields a value (the decoded value, or
`fail_val` on decode failure), the source ends exhausted, and `_failures`
grows by the number of undecodable lines. -/
theorem readAll_skip_failures_go (ls : List String) (r : Reader J) (hf : r.f = ls)
    (hsf : r.skip_failures = true) (hnb : ∀ l ∈ ls, pyStrip l ≠ "") :
    readAll r = (.ok (ls.map (fun l => (r.loads (pyStrip l)).getD r.fail_val)),
      { r with f := [],
               failures := r.failures + ls.countP (fun l => (r.loads (pyStrip l)).isNone),
               line_num := r.line_num + ls.length + 1 }) := by
  induction ls generalizing r with
  | nil =>
    rw [readAll_of_stop r _ (next_nil r hf)]
    obtain ⟨f0, sf, se, ev, fv, ld, fl, ln⟩ := r
    simp only at hf
    subst hf
    simp
  | cons l rest ih =>
    obtain ⟨f0, sf, se, ev, fv, ld, fl, ln⟩ := r
    simp only at hf hsf ⊢
    subst hf
    subst hsf
    rcases hl : ld (pyStrip l) with _ | v
    · have hnext : (⟨l :: rest, true, se, ev, fv, ld, fl, ln⟩ : Reader J).next
          = (.value fv, ⟨rest, true, se, ev, fv, ld, fl + 1, ln + 1⟩) := by
        rw [next_cons_nonblank _ l rest rfl (hnb l (by simp))]
        simp [decodeRow, hl]
      rw [readAll_of_value _ _ _ hnext,
        ih ⟨rest, true, se, ev, fv, ld, fl + 1, ln + 1⟩ rfl rfl (fun x hx => hnb x (by simp [hx]))]
      simp only [Except.map, List.map_cons, List.countP_cons, hl]
      simp [Reader.mk.injEq]
      omega
    · have hnext : (⟨l :: rest, true, se, ev, fv, ld, fl, ln⟩ : Reader J).next
          = (.value v, ⟨rest, true, se, ev, fv, ld, fl, ln + 1⟩) := by
        rw [next_cons_nonblank _ l rest rfl (hnb l (by simp))]
        simp [decodeRow, hl]
      rw [readAll_of_value _ _ _ hnext,
        ih ⟨rest, true, se, ev, fv, ld, fl, ln + 1⟩ rfl rfl (fun x hx => hnb x (by simp [hx]))]
      simp only [Except.map, List.map_cons, List.countP_cons, hl]
      simp [Reader.mk.injEq]
      omega

/-- Draining a reader whose remaining lines are all non-blank and all
decodable: every line yields its decoded value and `_failures` is
untouched (whatever `skip_failures` is). -/
theorem readAll_decodable_go (ls : List String) (r : Reader J) (hf : r.f = ls)
    (h : ∀ l ∈ ls, pyStrip l ≠ "" ∧ (r.loads (pyStrip l)).isSome) :
    readAll r = (.ok (ls.map (fun l => (r.loads (pyStrip l)).getD r.fail_val)),
      { r with f := [], line_num := r.line_num + ls.length + 1 }) := by
  induction ls generalizing r with
  | nil =>
    rw [readAll_of_stop r _ (next_nil r hf)]
    obtain ⟨f0, sf, se, ev, fv, ld, fl, ln⟩ := r
    simp only at hf
    subst hf
    simp
  | cons l rest ih =>
    obtain ⟨f0, sf, se, ev, fv, ld, fl, ln⟩ := r
    simp only at hf h ⊢
    subst hf
    obtain ⟨hnb, hsome⟩ := h l (by simp)
    rcases hl : ld (pyStrip l) with _ | v
    · rw [hl] at hsome
      simp at hsome
    · have hnext : (⟨l :: rest, sf, se, ev, fv, ld, fl, ln⟩ : Reader J).next
          = (.value v, ⟨rest, sf, se, ev, fv, ld, fl, ln + 1⟩) := by
        rw [next_cons_nonblank _ l rest rfl hnb]
        simp [decodeRow, hl]
      rw [readAll_of_value _ _ _ hnext,
        ih ⟨rest, sf, se, ev, fv, ld, fl, ln + 1⟩ rfl (fun x hx => h x (by simp [hx]))]
      simp only [Except.map, List.map_cons, hl]
      simp [Reader.mk.injEq]
      omega

/-- Draining a reader with `skip_failures=False` over a source that is a
run of non-blank decodable lines followed by a non-blank undecodable one:
the first malformed line raises `ValueError`, `_failures` is incremented
once, and the reader is left positioned just past the bad line. -/
theorem readAll_error_go (good : List String) (r : Reader J) (bad : String) (rest : List String)
    (hf : r.f = good ++ bad :: rest) (hsf : r.skip_failures = false)
    (hgood : ∀ l ∈ good, pyStrip l ≠ "" ∧ (r.loads (pyStrip l)).isSome)
    (hbnb : pyStrip bad ≠ "") (hbad : r.loads (pyStrip bad) = none) :
    (readAll r).1 = .error () ∧ (readAll r).2.f = rest ∧
      (readAll r).2.failures = r.failures + 1 := by
  induction good generalizing r with
  | nil =>
    obtain ⟨f0, sf, se, ev, fv, ld, fl, ln⟩ := r
    simp only at hf hsf hbad ⊢
    subst hf
    subst hsf
    simp only [List.nil_append]
    have hnext : (⟨bad :: rest, false, se, ev, fv, ld, fl, ln⟩ : Reader J).next
        = (.error, ⟨rest, false, se, ev, fv, ld, fl + 1, ln + 1⟩) := by
      rw [next_cons_nonblank _ bad rest rfl hbnb]
      simp [decodeRow, hbad]
    rw [readAll_of_error _ _ hnext]
    simp
  | cons g good2 ih =>
    obtain ⟨f0, sf, se, ev, fv, ld, fl, ln⟩ := r
    simp only at hf hsf hgood hbad ⊢
    subst hf
    subst hsf
    simp only [List.cons_append]
    obtain ⟨hnb, hsome⟩ := hgood g (by simp)
    rcases hl : ld (pyStrip g) with _ | v
    · rw [hl] at hsome
      simp at hsome
    · have hnext : (⟨g :: (good2 ++ bad :: rest), false, se, ev, fv, ld, fl, ln⟩ : Reader J).next
          = (.value v, ⟨good2 ++ bad :: rest, false, se, ev, fv, ld, fl, ln + 1⟩) := by
        rw [next_cons_nonblank _ g (good2 ++ bad :: rest) rfl hnb]
        simp [decodeRow, hl]
      rw [readAll_of_value _ _ _ hnext]
      have := ih ⟨good2 ++ bad :: rest, false, se, ev, fv, ld, fl, ln + 1⟩ rfl rfl
        (fun x hx => hgood x (by simp [hx]))
      simp only at this
      obtain ⟨h1, h2, h3⟩ := this hbad
      rcases hra : readAll (⟨good2 ++ bad :: rest, false, se, ev, fv, ld, fl, ln + 1⟩ : Reader J)
        with ⟨res, rfin⟩
      rw [hra] at h1 h2 h3
      simp only at h1 h2 h3
      subst h1
      simp [Except.map, h2, h3]

/-- The constructor's skip loop over a prefix of non-blank decodable
lines consumes exactly one line per `next()` call: `pre.length` calls
discard exactly the `pre.length` first lines, with no failures. -/
theorem applySkips_decodable (pre : List String) (r : Reader J) (post : List String)
    (hf : r.f = pre ++ post)
    (hpre : ∀ l ∈ pre, pyStrip l ≠ "" ∧ (r.loads (pyStrip l)).isSome) :
    applySkips pre.length r = .ok { r with f := post, line_num := r.line_num + pre.length } := by
  induction pre generalizing r with
  | nil =>
    obtain ⟨f0, sf, se, ev, fv, ld, fl, ln⟩ := r
    simp only at hf ⊢
    subst hf
    simp [applySkips]
  | cons p pre2 ih =>
    obtain ⟨f0, sf, se, ev, fv, ld, fl, ln⟩ := r
    simp only at hf hpre ⊢
    subst hf
    simp only [List.cons_append]
    obtain ⟨hnb, hsome⟩ := hpre p (by simp)
    rcases hl : ld (pyStrip p) with _ | v
    · rw [hl] at hsome
      simp at hsome
    · have hnext : (⟨p :: (pre2 ++ post), sf, se, ev, fv, ld, fl, ln⟩ : Reader J).next
          = (.value v, ⟨pre2 ++ post, sf, se, ev, fv, ld, fl, ln + 1⟩) := by
        rw [next_cons_nonblank _ p (pre2 ++ post) rfl hnb]
        simp [decodeRow, hl]
      simp only [List.length_cons, applySkips]
      rw [hnext]
      dsimp only
      rw [ih ⟨pre2 ++ post, sf, se, ev, fv, ld, fl, ln + 1⟩ rfl
        (fun x hx => hpre x (by simp [hx]))]
      simp [Reader.mk.injEq]
      omega

end NLJ

namespace NLJ

variable {J : Type}

/-- Two strings with the same character data are equal. -/
theorem string_data_eq (s t : String) (h : s.data = t.data) : s = t := by
  cases s
  cases t
  exact congrArg String.mk h

/-- Appending the empty string is the identity. -/
theorem string_append_nil (s : String) : s ++ "" = s := by
  apply string_data_eq
  simp [String.data_append]

/-- String append is associative. -/
theorem string_append_assoc (a b c : String) : a ++ b ++ c = a ++ (b ++ c) := by
  apply string_data_eq
  simp [String.data_append]

/-- One `Writer.write` call increments `_line_num` exactly when it
returns `True`. -/
theorem write_line_num (w : Writer J) (l : J) :
    (w.write l).2.line_num = w.line_num + (cond (isOkTrue (w.write l).1) 1 0) := by
  unfold Writer.write
  rcases w.dumps l with _ | s <;> dsimp only
  · by_cases hskf : w.skip_failures = true <;> simp [hskf, isOkTrue]
  · by_cases hsr : w.sinkRaises = true <;> by_cases hskf : w.skip_failures = true <;>
      simp [hsr, hskf, isOkTrue]

/-- Over any sequence of `write` calls, `_line_num` grows by exactly the
number of calls that returned `True`. -/
theorem writeSeq_line_num_go (ls : List J) (w : Writer J) :
    (writeSeq w ls).2.line_num = w.line_num + (writeSeq w ls).1.countP isOkTrue := by
  induction ls generalizing w with
  | nil => simp [writeSeq]
  | cons l rest ih =>
    simp only [writeSeq]
    rcases hw : w.write l with ⟨res, w2⟩
    dsimp only
    rcases hs : writeSeq w2 rest with ⟨ress, w3⟩
    dsimp only
    have h1 := write_line_num w l
    rw [hw] at h1
    have h2 := ih w2
    rw [hs] at h2
    simp only at h1 h2
    rw [List.countP_cons, h2, h1]
    rcases res with e | b
    · simp [isOkTrue]
    · rcases b
      · simp [isOkTrue]
      · simp [isOkTrue]
        omega

/-- The write loop of `dump`/`dumps` over a non-raising sink and
all-encodable records succeeds, appending each encoded record plus the
delimiter, in order. -/
theorem dumpLoop_ok (ls : List J) (w : Writer J) (hr : w.sinkRaises = false)
    (h : ∀ x ∈ ls, (w.dumps x).isSome) :
    dumpLoop w ls = (.ok (),
      { w with contents := w.contents ++ encLines w.dumps w.delimiter ls,
               line_num := w.line_num + ls.length }) := by
  induction ls generalizing w with
  | nil =>
    obtain ⟨c, sr, cl, sf, d, dp, ln, fl⟩ := w
    simp [dumpLoop, encLines, string_append_nil]
  | cons l rest ih =>
    obtain ⟨c, sr, cl, sf, d, dp, ln, fl⟩ := w
    simp only at hr h ⊢
    subst hr
    obtain hsome := h l (by simp)
    rcases hl : dp l with _ | s
    · rw [hl] at hsome
      simp at hsome
    · have hw : (⟨c, false, cl, sf, d, dp, ln, fl⟩ : Writer J).write l
          = (.ok true, ⟨c ++ (s ++ d), false, cl, sf, d, dp, ln + 1, fl⟩) := by
        simp [Writer.write, hl]
      simp only [dumpLoop]
      rw [hw]
      dsimp only
      rw [ih ⟨c ++ (s ++ d), false, cl, sf, d, dp, ln + 1, fl⟩ rfl
        (fun x hx => h x (by simp [hx]))]
      have hc : c ++ (s ++ d) ++ encLines dp d rest = c ++ encLines dp d (l :: rest) := by
        simp only [encLines, hl, Option.getD_some]
        rw [string_append_assoc]
      simp [Writer.mk.injEq, hc]
      all_goals omega

end NLJ

namespace NLJ

variable {J : Type}

/-- Prepending the empty string is the identity. -/
theorem string_nil_append (s : String) : "" ++ s = s := by
  apply string_data_eq
  simp [String.data_append]

/-- A character list fixed by `stripChars` has no leading or trailing
whitespace to drop. -/
theorem dropWhile_of_strip_eq (l : List Char) (h : stripChars l = l) :
    l.dropWhile isPySpace = l ∧ l.reverse.dropWhile isPySpace = l.reverse := by
  have hA : l.dropWhile isPySpace <:+ l := List.dropWhile_suffix _
  have hB : (l.dropWhile isPySpace).reverse.dropWhile isPySpace <:+
      (l.dropWhile isPySpace).reverse := List.dropWhile_suffix _
  have hlen : l.length ≤ (l.dropWhile isPySpace).length := by
    have h1 : ((l.dropWhile isPySpace).reverse.dropWhile isPySpace).length ≤
        (l.dropWhile isPySpace).length := by
      simpa using hB.length_le
    calc l.length = (stripChars l).length := by rw [h]
      _ = ((l.dropWhile isPySpace).reverse.dropWhile isPySpace).length := by
          simp [stripChars]
      _ ≤ (l.dropWhile isPySpace).length := h1
  have hA2 : l.dropWhile isPySpace = l :=
    hA.eq_of_length (le_antisymm hA.length_le hlen)
  refine ⟨hA2, ?_⟩
  have : stripChars l = (l.reverse.dropWhile isPySpace).reverse := by
    simp [stripChars, hA2]
  rw [this] at h
  have := congrArg List.reverse h
  simpa using this

/-- Appending a newline to a non-empty, already-stripped string strips
back to the original string. -/
theorem pyStrip_append_newline (s : String) (hne : s ≠ "") (hs : pyStrip s = s) :
    pyStrip (s ++ "\n") = s := by
  have hd : stripChars s.data = s.data := congrArg String.data hs
  obtain ⟨h1, h2⟩ := dropWhile_of_strip_eq s.data hd
  rcases hcd : s.data with _ | ⟨c, t⟩
  · exact absurd (string_data_eq s "" (by simp [hcd])) hne
  · rw [hcd] at h1 h2
    have hc : isPySpace c = false := by
      cases hcc : isPySpace c
      · rfl
      · rw [List.dropWhile_cons, hcc] at h1
        rw [if_pos rfl] at h1
        have hsl := (List.dropWhile_suffix (l := t) isPySpace).length_le
        rw [h1] at hsl
        simp at hsl
    apply string_data_eq
    have hdata : (s ++ "\n").data = c :: (t ++ ['\n']) := by
      simp [String.data_append, hcd]
    show stripChars (s ++ "\n").data = s.data
    rw [hdata, hcd]
    unfold stripChars
    rw [List.dropWhile_cons, hc]
    rw [if_neg Bool.false_ne_true]
    have hrev : (c :: (t ++ ['\n'])).reverse = '\n' :: (c :: t).reverse := by
      simp
    rw [hrev]
    rw [List.dropWhile_cons]
    have : isPySpace '\x0a' = true := rfl
    rw [this]
    rw [if_pos rfl]
    rw [h2]
    simp

/-- Splitting text that starts with a newline-free segment followed by a
newline yields that segment (with its newline) as the first line. -/
theorem splitLinesAux_no_nl (la : List Char) (h : '\n' ∉ la) (rest acc : List Char) :
    splitLinesAux (la ++ '\n' :: rest) acc
      = ((acc.reverse ++ la) ++ ['\n']) :: splitLinesAux rest [] := by
  induction la generalizing acc with
  | nil => simp [splitLinesAux]
  | cons c la2 ih =>
    have hc : ¬ c = '\n' := by
      intro hcc
      exact h (by simp [hcc])
    simp only [List.cons_append, splitLinesAux]
    rw [if_neg hc]
    simp only [List.append_eq]
    rw [ih (fun hx => h (by simp [hx])) (c :: acc)]
    simp

/-- `StringIO` line iteration peels one newline-terminated line at a
time. -/
theorem splitLines_cons (s t : String) (hnl : '\n' ∉ s.data) :
    splitLines (s ++ "\n" ++ t) = (s ++ "\n") :: splitLines t := by
  unfold splitLines
  have hd : (s ++ "\n" ++ t).data = s.data ++ '\n' :: t.data := by
    simp [String.data_append]
  rw [hd, splitLinesAux_no_nl s.data hnl t.data []]
  simp only [List.reverse_nil, List.nil_append, List.map_cons]
  have hhd : String.mk (s.data ++ ['\n']) = s ++ "\n" := by
    apply string_data_eq
    simp [String.data_append]
  rw [hhd]

/-- The text written by `dumps` with delimiter `"\n"` splits back into
exactly one line per record. -/
theorem splitLines_encLines (enc : J → Option String) (rs : List J)
    (h : ∀ x ∈ rs, (enc x).isSome ∧ '\n' ∉ ((enc x).getD "").data) :
    splitLines (encLines enc "\n" rs) = rs.map (fun x => (enc x).getD "" ++ "\n") := by
  induction rs with
  | nil => rfl
  | cons x rest ih =>
    obtain ⟨hsome, hnl⟩ := h x (by simp)
    simp only [encLines, List.map_cons]
    rw [splitLines_cons _ _ hnl, ih (fun y hy => h y (by simp [hy]))]

end NLJ

namespace NLJ

variable {J : Type}

/-- C1 (counterexample): with `skip_failures=True`, a pull on the
malformed line `"["` returns a value (`fail_val = 0`) for that very line
and leaves the decodable line `"A"` unread — it does not keep pulling
until a later line decodes. -/
theorem next_malformed_skips_nothing_cx :
    tDec (pyStrip "[") = none ∧ tDec (pyStrip "A") = some 1 ∧
    (rMalformed.next).1 = .value 0 ∧ (rMalformed.next).1 ≠ .value 1 ∧
    (rMalformed.next).2.f = ["A"] := by
  decide

/-- C1 (amended): with `skip_failures=True`, a single `next()` call on a
non-blank line that fails to decode consumes exactly that line,
increments the failure counter once, and returns `fail_val`; it does not
retry subsequent lines. -/
theorem next_malformed_returns_fail_val (r : Reader J) (l : String) (rest : List String)
    (hf : r.f = l :: rest) (hnb : pyStrip l ≠ "") (hdec : r.loads (pyStrip l) = none)
    (hsf : r.skip_failures = true) :
    r.next = (.value r.fail_val,
      { r with f := rest, failures := r.failures + 1, line_num := r.line_num + 1 }) := by
  rw [next_cons_nonblank r l rest hf hnb]
  obtain ⟨f0, sf, se, ev, fv, ld, fl, ln⟩ := r
  simp only at hdec hsf ⊢
  subst hsf
  simp [decodeRow, hdec]

/-- C1 (witness): the amended statement evaluated on the concrete
malformed-then-decodable source. -/
theorem next_malformed_returns_fail_val_witness :
    rMalformed.next = (.value 0,
      { rMalformed with f := ["A"], failures := 1, line_num := 1 }) :=
  next_malformed_returns_fail_val rMalformed "[" ["A"] rfl (by decide) (by decide) rfl

/-- C2 (counterexample): a source with `n = 1` lines of which `k = 1` is
malformed, read to exhaustion with `skip_failures=True`, yields one
record (the `fail_val` placeholder `0`), not `n - k = 0` records; the
failure counter does equal `k = 1`. -/
theorem readAll_all_malformed_cx :
    (readAll rAllBad).1 = .ok [0] ∧ (readAll rAllBad).1 ≠ .ok [] ∧
    (readAll rAllBad).2.failures = 1 := by
  have h1 : rAllBad.next = (.value 0, ⟨[], true, true, 0, 0, tDec, 1, 1⟩) := rfl
  have h2 : (⟨[], true, true, 0, 0, tDec, 1, 1⟩ : Reader Nat).next
      = (.stop, ⟨[], true, true, 0, 0, tDec, 1, 2⟩) := rfl
  rw [readAll_of_value _ _ _ h1, readAll_of_stop _ _ h2]
  refine ⟨rfl, ?_, rfl⟩
  simp [Except.map]

/-- C2 (amended): reading a source of `n` non-blank lines to exhaustion
with `skip_failures=True` yields `n` values — the decoded value for each
decodable line and `fail_val` for each of the `k` malformed lines — and
leaves the failure counter increased by exactly `k`. -/
theorem readAll_skip_failures_counts (r : Reader J) (hsf : r.skip_failures = true)
    (hnb : ∀ l ∈ r.f, pyStrip l ≠ "") :
    (readAll r).1 = .ok (r.f.map (fun l => (r.loads (pyStrip l)).getD r.fail_val)) ∧
    (r.f.map (fun l => (r.loads (pyStrip l)).getD r.fail_val)).length = r.f.length ∧
    (readAll r).2.failures
      = r.failures + r.f.countP (fun l => (r.loads (pyStrip l)).isNone) := by
  rw [readAll_skip_failures_go r.f r rfl hsf hnb]
  exact ⟨rfl, by simp, rfl⟩

/-- C2 (witness): the spec's concrete scenario — 3 lines with the middle
one malformed — yields 3 values `[1, 0, 2]` (with `fail_val = 0` in the
middle) and a failure count of 1. -/
theorem readAll_skip_failures_counts_witness :
    (readAll rSkipScenario).1 = .ok [1, 0, 2] ∧
    (readAll rSkipScenario).2.failures = 1 := by
  have h := readAll_skip_failures_counts rSkipScenario rfl (by decide)
  exact ⟨h.1, h.2.2⟩

/-- C3: with `skip_failures=False`, iterating pulls raises `ValueError`
exactly at the first malformed line, increments the failure counter
once, and leaves the stream positioned just past that bad line, so the
next pull reads the line that follows it. -/
theorem readAll_error_first_malformed (r : Reader J) (good : List String) (bad : String)
    (rest : List String) (hf : r.f = good ++ bad :: rest) (hsf : r.skip_failures = false)
    (hgood : ∀ l ∈ good, pyStrip l ≠ "" ∧ (r.loads (pyStrip l)).isSome)
    (hbnb : pyStrip bad ≠ "") (hbad : r.loads (pyStrip bad) = none) :
    (readAll r).1 = .error () ∧ (readAll r).2.f = rest ∧
      (readAll r).2.failures = r.failures + 1 :=
  readAll_error_go good r bad rest hf hsf hgood hbnb hbad

/-- C3 (witness): on `["A", "[", "B"]` with `skip_failures=False` the
error is raised at `"["` and the remaining source is `["B"]`. -/
theorem readAll_error_first_malformed_witness :
    (readAll rStrictScenario).1 = .error () ∧ (readAll rStrictScenario).2.f = ["B"] ∧
      (readAll rStrictScenario).2.failures = 1 :=
  readAll_error_first_malformed rStrictScenario ["A"] "[" ["B"] rfl rfl (by decide)
    (by decide) rfl

/-- C4: `Writer.write` wraps the underlying `f.write` call in its
catch-all `except Exception` handler, so an I/O error raised by the
underlying file object during the write is counted as a failure and
swallowed (`return False`) when `skip_failures=True`, instead of
propagating; with `skip_failures=False` it is re-raised. -/
theorem write_swallows_io_error :
    (Writer.write (Writer.make (J := Nat) "" true false true "\n" tEnc) 1).1 = .ok false ∧
    (Writer.write (Writer.make (J := Nat) "" true false true "\n" tEnc) 1).2.failures = 1 ∧
    (Writer.write (Writer.make (J := Nat) "" true false false "\n" tEnc) 1).1
      = .error .ioErr :=
  ⟨rfl, rfl, rfl⟩

/-- C5 (counterexample): blank lines are never handed to the codec. With
a codec that decodes the empty string to `7`, a default reader over one
blank line ends the stream instead of yielding `7`, and with
`skip_empty=False` it yields `empty_val = 9` instead of `7`. -/
theorem blank_line_not_decoded_cx :
    tDec "" = some 7 ∧ (rBlankDefault.next).1 = .stop ∧ (rBlankDefault.next).1 ≠ .value 7 ∧
    (rBlankNoSkip.next).1 = .value 9 ∧ (rBlankNoSkip.next).1 ≠ .value 7 := by
  decide

/-- C5 (amended): the core read loop treats blank lines specially. By
default (`skip_empty=True`) it silently skips any run of blank lines and
decodes the first non-blank line; with `skip_empty=False` it returns
`empty_val` for a blank line. In neither case is a blank line handed to
the codec. -/
theorem blank_lines_bypass_codec (r : Reader J) :
    (∀ bs l rest, r.f = bs ++ l :: rest → (∀ b ∈ bs, pyStrip b = "") → pyStrip l ≠ "" →
      r.skip_empty = true →
      r.next = decodeRow (pyStrip l)
        { r with f := rest, line_num := r.line_num + bs.length + 1 }) ∧
    (∀ b rest, r.f = b :: rest → pyStrip b = "" → r.skip_empty = false →
      r.next = (.value r.empty_val, { r with f := rest, line_num := r.line_num + 1 })) := by
  constructor
  · intro bs l rest hf hb hl hse
    exact next_skip_empty r bs l rest hf hb hl hse
  · intro b rest hf hb hse
    unfold Reader.next
    rw [hf]
    dsimp only
    rw [if_neg (by simp [hse]), if_pos hb]

/-- C5 (witness): both amended branches evaluated on concrete readers:
the blank line before `"A"` is skipped without decoding, and with
`skip_empty=False` the blank line yields `empty_val = 9`. -/
theorem blank_lines_bypass_codec_witness :
    rBlankThenA.next = decodeRow (pyStrip "A") { rBlankThenA with f := [], line_num := 2 } ∧
    rBlankNoSkip.next = (.value 9, { rBlankNoSkip with f := [], line_num := 1 }) := by
  constructor
  · exact (blank_lines_bypass_codec rBlankThenA).1 [""] "A" [] rfl (by decide) (by decide) rfl
  · exact (blank_lines_bypass_codec rBlankNoSkip).2 "" [] rfl (by decide) rfl

end NLJ

namespace NLJ

variable {J : Type}

/-- C6: round-trip. For records whose encodings are non-empty,
whitespace-clean, newline-free, and decode back to the original value,
`dumps` followed by `loads` (with the default `"\n"` delimiter and
default reader flags) returns the original record list. -/
theorem dumps_loads_roundtrip (enc : J → Option String) (dec : String → Option J)
    (ev fv : J) (rs : List J)
    (h : ∀ x ∈ rs, (enc x).isSome ∧ dec ((enc x).getD "") = some x ∧ (enc x).getD "" ≠ "" ∧
      pyStrip ((enc x).getD "") = (enc x).getD "" ∧ '\n' ∉ ((enc x).getD "").data) :
    ∃ t, dumps rs false "\n" enc = .ok t ∧ loads t 0 false true ev fv dec = .ok rs := by
  refine ⟨encLines enc "\n" rs, ?_, ?_⟩
  · unfold dumps
    dsimp only
    have hd := dumpLoop_ok rs (Writer.make "" false false false "\n" enc) rfl
      (fun x hx => (h x hx).1)
    rw [hd]
    dsimp only [Writer.make]
    rw [string_nil_append]
  · unfold loads
    rw [splitLines_encLines enc rs (fun x hx => ⟨(h x hx).1, (h x hx).2.2.2.2⟩)]
    show (readAll (⟨rs.map (fun x => (enc x).getD "" ++ "\n"), false, true, ev, fv, dec,
      0, 0⟩ : Reader J)).1 = .ok rs
    rw [readAll_decodable_go (rs.map fun x => (enc x).getD "" ++ "\n") _ rfl ?hlines]
    case hlines =>
      intro l hl
      obtain ⟨x, hx, hlx⟩ := List.mem_map.mp hl
      obtain ⟨hsome, hdec, hne, hstrip, hnl⟩ := h x hx
      subst hlx
      dsimp only
      rw [pyStrip_append_newline _ hne hstrip, hdec]
      exact ⟨hne, rfl⟩
    dsimp only
    congr 1
    rw [List.map_map]
    have hpt : ∀ x ∈ rs,
        ((fun l => (dec (pyStrip l)).getD fv) ∘ fun x => (enc x).getD "" ++ "\n") x = id x := by
      intro x hx
      obtain ⟨hsome, hdec, hne, hstrip, hnl⟩ := h x hx
      simp only [Function.comp, id]
      rw [pyStrip_append_newline _ hne hstrip, hdec]
      rfl
    rw [List.map_congr_left hpt, List.map_id]

/-- C6 (witness): `dumps [1, 2]` with the toy codec produces a text that
`loads` turns back into `[1, 2]`. -/
theorem dumps_loads_roundtrip_witness :
    ∃ t, dumps [1, 2] false "\n" tEnc = .ok t ∧
      loads t 0 false true (0 : Nat) 0 tDec = .ok [1, 2] :=
  dumps_loads_roundtrip tEnc tDec 0 0 [1, 2] (by decide)

/-- C7 (counterexample): constructing a reader with `skip_lines=1` over
the 3-line source `["", "A", "B"]` discards TWO physical lines (the
blank line and `"A"`), because each discard is a full `next()` call that
itself skips blank lines: the remaining source is `["B"]`, not
`["A", "B"]`. -/
theorem skip_lines_blank_cx :
    Reader.make ["", "A", "B"] 1 false true (0 : Nat) 0 tDec =
      .ok { f := ["B"], skip_failures := false, skip_empty := true, empty_val := 0,
            fail_val := 0, loads := tDec, failures := 0, line_num := 2 } ∧
    (Reader.make ["", "A", "B"] 1 false true (0 : Nat) 0 tDec).map Reader.f
      ≠ .ok ["A", "B"] := by
  refine ⟨rfl, ?_⟩
  have heval : (Reader.make ["", "A", "B"] 1 false true (0 : Nat) 0 tDec).map Reader.f
      = .ok ["B"] := rfl
  rw [heval]
  simp

/-- C7 (amended): each `skip_lines` discard is a full read-and-decode
`next()` call subject to the failure policy, so over a source whose
first `skip_lines` lines are non-blank and decodable the constructor
discards exactly those lines with no failures; iterating the resulting
reader over a non-blank decodable remainder yields exactly the
remaining records. -/
theorem make_skip_lines_prefix (pre post : List String) (sf se : Bool) (ev fv : J)
    (dec : String → Option J)
    (hpre : ∀ l ∈ pre, pyStrip l ≠ "" ∧ (dec (pyStrip l)).isSome) :
    Reader.make (pre ++ post) (pre.length : Int) sf se ev fv dec =
      .ok { f := post, skip_failures := sf, skip_empty := se, empty_val := ev, fail_val := fv,
            loads := dec, failures := 0, line_num := pre.length } ∧
    ((∀ l ∈ post, pyStrip l ≠ "" ∧ (dec (pyStrip l)).isSome) →
      (readAll { f := post, skip_failures := sf, skip_empty := se, empty_val := ev,
                 fail_val := fv, loads := dec, failures := 0, line_num := pre.length }).1
        = .ok (post.map fun l => (dec (pyStrip l)).getD fv)) := by
  constructor
  · unfold Reader.make
    rw [Int.toNat_natCast]
    have := applySkips_decodable pre (⟨pre ++ post, sf, se, ev, fv, dec, 0, 0⟩ : Reader J)
      post rfl hpre
    simpa using this
  · intro hpost
    rw [readAll_decodable_go post _ rfl hpost]

/-- C7 (witness): `skip_lines=2` over the 5-line source
`["A", "B", "C", "D", "E"]` discards exactly the first two lines, and
iterating yields only the last three decoded records `[3, 4, 5]`. -/
theorem make_skip_lines_prefix_witness :
    Reader.make ["A", "B", "C", "D", "E"] 2 false true (0 : Nat) 0 tDec =
      .ok { f := ["C", "D", "E"], skip_failures := false, skip_empty := true, empty_val := 0,
            fail_val := 0, loads := tDec, failures := 0, line_num := 2 } ∧
    (readAll { f := ["C", "D", "E"], skip_failures := false, skip_empty := true,
               empty_val := 0, fail_val := 0, loads := tDec, failures := 0,
               line_num := 2 }).1 = .ok [3, 4, 5] := by
  have h := make_skip_lines_prefix ["A", "B"] ["C", "D", "E"] false true (0 : Nat) 0 tDec
    (by decide)
  exact ⟨h.1, h.2 (by decide)⟩

/-- C8 (counterexample): constructing a reader with `skip_lines=-1` does
NOT fail — `range(-1)` is empty, so construction succeeds silently with
nothing skipped. -/
theorem make_negative_skip_lines_cx :
    Reader.make ["A"] (-1) false true (0 : Nat) 0 tDec =
      .ok { f := ["A"], skip_failures := false, skip_empty := true, empty_val := 0,
            fail_val := 0, loads := tDec, failures := 0, line_num := 0 } ∧
    (Reader.make ["A"] (-1) false true (0 : Nat) 0 tDec).isOk = true :=
  ⟨rfl, rfl⟩

/-- C8 (amended): for every negative `skip_lines`, construction succeeds
(no validation is performed anywhere in `Reader.__init__`) and behaves
exactly like `skip_lines=0`: no line is read and no error is raised. -/
theorem make_negative_skip_lines_noop (f0 : List String) (k : Int) (hk : k < 0)
    (sf se : Bool) (ev fv : J) (dec : String → Option J) :
    Reader.make f0 k sf se ev fv dec =
      .ok { f := f0, skip_failures := sf, skip_empty := se, empty_val := ev, fail_val := fv,
            loads := dec, failures := 0, line_num := 0 } := by
  unfold Reader.make
  rw [Int.toNat_of_nonpos (le_of_lt hk)]
  rfl

/-- C8 (witness): the amended statement at `skip_lines = -1` over a
concrete one-line source. -/
theorem make_negative_skip_lines_noop_witness :
    Reader.make ["A"] (-1) false true (5 : Nat) 6 tDec =
      .ok { f := ["A"], skip_failures := false, skip_empty := true, empty_val := 5,
            fail_val := 6, loads := tDec, failures := 0, line_num := 0 } :=
  make_negative_skip_lines_noop ["A"] (-1) (by decide) false true 5 6 tDec

/-- C9 (counterexample): `dump` returns `True` but the underlying file
object is still open afterwards — there is no `close` call anywhere in
`dump` (nor does `Writer` have a `close` method). -/
theorem dump_no_close_cx :
    (dump [1] "" false false false "\n" tEnc).1 = .ok true ∧
    (dump [1] "" false false false "\n" tEnc).2.closed = false ∧
    (dump [1] "" false false false "\n" tEnc).2.contents = "A\n" :=
  ⟨rfl, rfl, rfl⟩

/-- C9 (amended): `dump` writes every record in order (each encoding
followed by the delimiter, appended left to right) and returns `True`,
but it never closes the underlying file object: the `closed` state is
left exactly as it was at entry, on this (the only non-raising) path. -/
theorem dump_writes_all_no_close (lines : List J) (c0 : String) (cl0 sf : Bool)
    (delim : String) (enc : J → Option String) (h : ∀ x ∈ lines, (enc x).isSome) :
    dump lines c0 false cl0 sf delim enc =
      (.ok true, { contents := c0 ++ encLines enc delim lines, sinkRaises := false,
                   closed := cl0, skip_failures := sf, delimiter := delim, dumps := enc,
                   line_num := lines.length, failures := 0 }) := by
  unfold dump
  dsimp only
  have hd := dumpLoop_ok lines (Writer.make c0 false cl0 sf delim enc) rfl h
  rw [hd]
  dsimp only [Writer.make]
  rw [Nat.zero_add]

/-- C9 (witness): dumping `[1, 2]` into an open buffer writes
`"A\nB\n"`, returns `True`, and leaves the buffer open. -/
theorem dump_writes_all_no_close_witness :
    dump [1, 2] "" false false false "\n" tEnc =
      (.ok true, { contents := "A\nB\n", sinkRaises := false, closed := false,
                   skip_failures := false, delimiter := "\n", dumps := tEnc,
                   line_num := 2, failures := 0 }) :=
  dump_writes_all_no_close [1, 2] "" false false "\n" tEnc (by decide)

/-- C10: for any writer configuration and any sequence of `write` calls,
the final `line_num` equals the number of calls that returned `True`:
it is incremented exactly once per fully successful write and never on a
call that raised or returned `False`. -/
theorem line_num_counts_successful_writes (c0 : String) (raises cl0 sf : Bool)
    (delim : String) (enc : J → Option String) (rs : List J) :
    (writeSeq (Writer.make c0 raises cl0 sf delim enc) rs).2.line_num =
      (writeSeq (Writer.make c0 raises cl0 sf delim enc) rs).1.countP isOkTrue := by
  have := writeSeq_line_num_go rs (Writer.make c0 raises cl0 sf delim enc)
  simpa [Writer.make] using this

end NLJ
